import Mathlib

/- Formal model of pdkit tremor_processor.py: a shallow embedding of the
   signal-processing pipeline (resampling, high-pass filtering, windowed
   FFT and Welch band extraction) together with proofs about each stage.

   Conventions of the embedding:
   * timestamps and channel values are exact rationals;
   * a Python exception is an explicit value of type PyErr, and fallible
     code returns Except PyErr _;
   * numeric kernels of the external libraries (the Butterworth
     coefficient values, the Hann taper values, the FFT values, the Welch
     PSD values) are parameters of the corresponding functions, while
     their documented validation and shape behaviour (scipy butter
     rejecting a normalized frequency outside (0,1), numpy broadcasting,
     the pandas column-assignment length check) is modelled explicitly. -/

/-- Python exception kinds relevant to the pipeline. -/
inductive PyErr : Type
  | valueError
  | attributeError
  | otherError
deriving DecidableEq

/-- Complex value with rational parts, as produced by the FFT column. -/
structure Qc : Type where
  re : ℚ
  im : ℚ
deriving DecidableEq

/-- Squared magnitude of a complex bin. -/
def Qc.normSq (z : Qc) : ℚ := z.re ^ 2 + z.im ^ 2

/-- Magnitude of a complex bin (numpy abs of a complex entry). -/
noncomputable def Qc.abs (z : Qc) : ℝ := Real.sqrt ((z.normSq : ℝ))

/-- Elementwise division of a complex bin by a length. -/
def Qc.divNat (z : Qc) (n : ℕ) : Qc := ⟨z.re / n, z.im / n⟩

/-- Pandas data frame as the pipeline uses it: a timestamp index
    (seconds; load_data keeps the same instants in the td column, so the
    model identifies the two) plus named numeric channels. -/
structure DataFrame : Type where
  td : List ℚ
  cols : List (String × List ℚ)
deriving DecidableEq

/-- Attribute access data_frame.name for a channel: some column or the
    AttributeError side is taken by the caller. -/
def getCol (df : DataFrame) (name : String) : Option (List ℚ) :=
  (df.cols.find? (fun c => decide (c.1 = name))).map (fun c => c.2)

/-- Column assignment data_frame[name] = v: replaces the column when the
    name exists, otherwise appends a new channel. -/
def setCol (df : DataFrame) (name : String) (v : List ℚ) : DataFrame :=
  if (df.cols.find? (fun c => decide (c.1 = name))).isSome then
    { df with cols := df.cols.map (fun c => if c.1 = name then (c.1, v) else c) }
  else
    { df with cols := df.cols ++ [(name, v)] }

/-- numpy.arange: points start, start+step, ... below stop; the length is
    the ceiling of (stop - start) / step. -/
def arange (start stop step : ℚ) : List ℚ :=
  (List.range (Int.ceil ((stop - start) / step)).toNat).map
    (fun i : ℕ => start + (i : ℚ) * step)

/-- scipy.interpolate.interp1d piecewise-linear interpolant of ys against
    the nodes xs, evaluated at x.  Queries outside the node range do not
    occur on the paths modelled here (interp1d would raise there); the
    catch-all line returns a junk value for them. -/
def interp1 : List ℚ → List ℚ → ℚ → ℚ
  | x0 :: x1 :: xs, y0 :: y1 :: ys, x =>
    if x ≤ x1 then y0 + (y1 - y0) * (x - x0) / (x1 - x0)
    else interp1 (x1 :: xs) (y1 :: ys) x
  | _, _, _ => 0

/-- Mean of the channel values whose timestamp falls in the bin
    [lo, hi); none models the NaN that pandas .mean() leaves for an
    empty bin. -/
def binMean (td ys : List ℚ) (lo hi : ℚ) : Option ℚ :=
  let sel := ((td.zip ys).filter (fun p => decide (lo ≤ p.1 ∧ p.1 < hi))).map (fun p => p.2)
  if sel.length = 0 then none else some (sel.sum / (sel.length : ℚ))

/-- Latest known value at or before position j. -/
def lastKnownBefore (l : List (Option ℚ)) (j : ℕ) : Option (ℕ × ℚ) :=
  ((List.range (j + 1)).reverse.filterMap (fun i => (l.getD i none).map (fun v => (i, v)))).head?

/-- Earliest known value at or after position j. -/
def nextKnownFrom (l : List (Option ℚ)) (j : ℕ) : Option (ℕ × ℚ) :=
  (((List.range l.length).drop j).filterMap (fun i => (l.getD i none).map (fun v => (i, v)))).head?

/-- pandas DataFrame.interpolate(method = linear) on one channel: interior
    NaN runs are closed linearly by position, trailing NaNs repeat the
    last known value; a leading NaN cannot occur on the modelled paths
    (the first bin always contains the first sample). -/
def fillNones (l : List (Option ℚ)) : List ℚ :=
  (List.range l.length).map (fun j : ℕ =>
    match l.getD j none with
    | some v => v
    | none =>
      match lastKnownBefore l j, nextKnownFrom l j with
      | some iv, some kv => iv.2 + (kv.2 - iv.2) * ((j : ℚ) - (iv.1 : ℚ)) / ((kv.1 : ℚ) - (iv.1 : ℚ))
      | some iv, none => iv.2
      | none, some kv => kv.2
      | none, none => 0)

/-- TremorProcessor.resample_signal.  Steps, in source order:
    df_resampled = data_frame.resample(str(1/fs)+'S').mean() (uniform bin
    grid anchored at multiples of 1/fs, per-bin means); an interp1d
    interpolant of mag_sum_acc against td (AttributeError when the column
    is absent, ValueError when fewer than 2 samples); the uniform grid
    arange(td[0], td[-1], 1/fs); the assignment
    df_resampled.mag_sum_acc = f(new_timestamp), which raises ValueError
    when the two grid lengths differ; finally .interpolate(linear). -/
def resample_signal (df : DataFrame) (fs : ℚ) : Except PyErr DataFrame :=
  let step := 1 / fs
  let t0 := df.td.headD 0
  let tl := df.td.getLastD 0
  let b0 := ⌊t0 / step⌋
  let b1 := ⌊tl / step⌋
  let nbins := if df.td.length = 0 then 0 else (b1 - b0 + 1).toNat
  let labels := (List.range nbins).map (fun i : ℕ => ((b0 : ℚ) + (i : ℚ)) * step)
  let means := df.cols.map (fun c =>
    (c.1, (List.range nbins).map (fun i : ℕ =>
      binMean df.td c.2 (((b0 : ℚ) + (i : ℚ)) * step) (((b0 : ℚ) + (i : ℚ) + 1) * step))))
  match getCol df "mag_sum_acc" with
  | none => .error PyErr.attributeError
  | some mag =>
    if df.td.length < 2 then .error PyErr.valueError
    else
      let newts := arange t0 tl step
      if newts.length ≠ nbins then .error PyErr.valueError
      else
        let magNew := newts.map (interp1 df.td mag)
        .ok { td := labels,
              cols := (means.map (fun c =>
                        if c.1 = "mag_sum_acc" then (c.1, magNew.map some) else c)).map
                      (fun c => (c.1, fillNones c.2)) }

/-- scipy.signal.butter: validates 0 < Wn < 1 for a digital design and
    raises ValueError otherwise; the numeric coefficient values are
    abstracted as the coeffs parameter. -/
def butter (coeffs : ℕ → ℚ → List ℚ × List ℚ) (order : ℕ) (wn : ℚ) :
    Except PyErr (List ℚ × List ℚ) :=
  if 0 < wn ∧ wn < 1 then .ok (coeffs order wn) else .error PyErr.valueError

/-- One step of the scipy.signal.lfilter difference equation:
    a0 * y[n] = sum_i b[i] x[n-i] - sum_j a[j] y[n-j], past samples 0. -/
def lfilterStep (b a x ys : List ℚ) : ℚ :=
  let n := ys.length
  let acc1 := ((List.range (n + 1)).map (fun i => b.getD i 0 * x.getD (n - i) 0)).sum
  let acc2 := ((List.range n).map (fun j => a.getD (j + 1) 0 * ys.getD (n - 1 - j) 0)).sum
  (acc1 - acc2) / a.getD 0 0

/-- First n outputs of the causal filter. -/
def lfilterAux (b a x : List ℚ) : ℕ → List ℚ
  | 0 => []
  | n + 1 =>
    let ys := lfilterAux b a x n
    ys ++ [lfilterStep b a x ys]

/-- scipy.signal.lfilter b a x: one output per input sample. -/
def lfilter (b a x : List ℚ) : List ℚ := lfilterAux b a x x.length

/-- TremorProcessor.filter_signal: designs the high-pass Butterworth
    filter at normalized cutoff 2*cutoff/fs, applies lfilter to
    mag_sum_acc and stores the result as the filtered_signal channel of
    the same frame. -/
def filter_signal (coeffs : ℕ → ℚ → List ℚ × List ℚ) (df : DataFrame)
    (cutoff : ℚ) (order : ℕ) (fs : ℚ) : Except PyErr DataFrame :=
  match butter coeffs order (2 * cutoff / fs) with
  | .error e => .error e
  | .ok ba =>
    match getCol df "mag_sum_acc" with
    | none => .error PyErr.attributeError
    | some mag => .ok (setCol df "filtered_signal" (lfilter ba.1 ba.2 mag))

/-- Python int(): truncation toward zero. -/
def pyTrunc (q : ℚ) : ℤ := if 0 ≤ q then ⌊q⌋ else -⌊-q⌋

/-- Python slice l[lo:hi]: negative indices count from the end, both
    bounds clamp to the list. -/
def pySlice {α : Type} (l : List α) (lo hi : ℤ) : List α :=
  let n : ℤ := (l.length : ℤ)
  let s := if lo < 0 then max (n + lo) 0 else min lo n
  let e := if hi < 0 then max (n + hi) 0 else min hi n
  (l.drop s.toNat).take (e - s).toNat

/-- numpy elementwise product with broadcasting: equal lengths multiply
    pointwise, a length-one operand is broadcast, anything else raises
    ValueError. -/
def npMul (xs ys : List ℚ) : Except PyErr (List ℚ) :=
  if xs.length = ys.length then .ok (List.zipWith (fun u v => u * v) xs ys)
  else if xs.length = 1 then .ok (ys.map (fun v => xs.headD 0 * v))
  else if ys.length = 1 then .ok (xs.map (fun u => u * ys.headD 0))
  else .error PyErr.valueError

/-- Spectral frame built by fft_signal: the tapered excerpt, its
    transform, and the carried-over timestamps. -/
structure FftFrame : Type where
  index : List ℚ
  filtered_signal : List ℚ
  transformed_signal : List Qc
  dt : List ℚ

/-- TremorProcessor.fft_signal: centered excerpt
    filtered_signal[int(L/2 - w/2) : int(L/2 + w/2)], Hann taper
    (length mismatch is the numpy broadcast ValueError), FFT of the
    tapered excerpt (ValueError on zero points), and the pandas frame
    construction which checks that all columns share one length. -/
def fft_signal (hannFn : ℕ → List ℚ) (fftFn : List ℚ → List Qc)
    (df : DataFrame) (window : ℕ) : Except PyErr FftFrame :=
  match getCol df "filtered_signal" with
  | none => .error PyErr.attributeError
  | some fsig =>
    let ll := pyTrunc ((fsig.length : ℚ) / 2 - (window : ℚ) / 2)
    let rr := pyTrunc ((fsig.length : ℚ) / 2 + (window : ℚ) / 2)
    let msa := pySlice fsig ll rr
    match npMul msa (hannFn window) with
    | .error e => .error e
    | .ok msaW =>
      if msaW.length = 0 then .error PyErr.valueError
      else
        let tr := fftFn msaW
        let dts := pySlice df.td ll rr
        if msaW.length = tr.length ∧ msaW.length = dts.length
        then .ok ⟨dts, msaW, tr, dts⟩
        else .error PyErr.valueError

/-- Result fields living on the processor instance; __init__ zeroes
    both. -/
structure TremorState : Type where
  amplitude : ℝ
  frequency : ℚ

/-- TremorProcessor.__init__ leaves amplitude = 0 and frequency = 0. -/
def initState : TremorState := ⟨0, 0⟩

/-- First index of the maximum (numpy argmax; ties keep the earliest
    index), none on an empty array. -/
def argmaxIdx : List ℚ → Option ℕ
  | [] => none
  | x :: xs =>
    match argmaxIdx xs with
    | none => some 0
    | some j => if x < xs.getD j 0 then some (j + 1) else some 0

/-- One-sided frequency axis: bin k of an N-point transform at sampling
    rate fs sits at k * fs / N; only the first N/2 bins are kept. -/
def frqAxis (fs : ℚ) (N : ℕ) : List ℚ :=
  (List.range (N / 2)).map (fun k : ℕ => (k : ℚ) * fs / (N : ℚ))

/-- TremorProcessor.tremor_amplitude: normalizes the transform by the
    excerpt length, keeps the one-sided half, sums the magnitudes of the
    bins strictly inside (lower, upper) into amplitude, then sets
    frequency from the argmax of the one-sided magnitudes.  The argmax
    comparison of magnitudes is decided on squared magnitudes, which
    orders identically; numpy argmax of an empty array raises
    ValueError, after the amplitude assignment already happened. -/
noncomputable def tremor_amplitude (s : TremorState) (f : FftFrame)
    (fs lower upper : ℚ) : TremorState × Except PyErr Unit :=
  let N := f.filtered_signal.length
  let ts := (f.transformed_signal.map (fun z => Qc.divNat z N)).take (N / 2)
  let frq := frqAxis fs N
  let amp : ℝ :=
    (((frq.zip ts).filter (fun p => decide (lower < p.1 ∧ p.1 < upper))).map
      (fun p => Qc.abs p.2)).sum
  let s1 : TremorState := { s with amplitude := amp }
  match argmaxIdx (ts.map Qc.normSq) with
  | none => (s1, .error PyErr.valueError)
  | some j => ({ s1 with frequency := frq.getD j 0 }, .ok ())

/-- TremorProcessor.tremor_amplitude_by_welch: the Welch PSD of the whole
    filtered_signal channel at segment length window (the PSD values are
    abstracted as the welchFn parameter), frequency from the argmax of
    the PSD, amplitude as the sum of the PSD values strictly inside the
    band. -/
noncomputable def tremor_amplitude_by_welch (welchFn : List ℚ → ℚ → ℕ → List ℚ × List ℚ)
    (s : TremorState) (df : DataFrame) (fs : ℚ) (window : ℕ)
    (lower upper : ℚ) : TremorState × Except PyErr Unit :=
  match getCol df "filtered_signal" with
  | none => (s, .error PyErr.attributeError)
  | some fsig =>
    let fp := welchFn fsig fs window
    match argmaxIdx fp.2 with
    | none => (s, .error PyErr.valueError)
    | some j =>
      ({ amplitude :=
           ((((fp.1.zip fp.2).filter (fun p => decide (lower < p.1 ∧ p.1 < upper))).map
              (fun p => p.2)).sum : ℚ),
         frequency := fp.1.getD j 0 }, .ok ())

/-- TremorProcessor.process: runs the stages in order inside a try block.
    The except ValueError handler formats verr.message, an attribute a
    Python 3 ValueError does not have, so that handler itself raises
    AttributeError; the bare except swallows every other exception and
    only logs, so the call returns None with the fields untouched. -/
noncomputable def process (coeffs : ℕ → ℚ → List ℚ × List ℚ) (hannFn : ℕ → List ℚ)
    (fftFn : List ℚ → List Qc) (welchFn : List ℚ → ℚ → ℕ → List ℚ × List ℚ)
    (s : TremorState) (df : DataFrame) (method : String) (fs cutoff : ℚ)
    (order window : ℕ) (lower upper : ℚ) : TremorState × Except PyErr Unit :=
  let run :=
    match resample_signal df fs with
    | .error e => (s, Except.error e)
    | .ok df1 =>
      match filter_signal coeffs df1 cutoff order fs with
      | .error e => (s, Except.error e)
      | .ok df2 =>
        if method = "fft" then
          match fft_signal hannFn fftFn df2 window with
          | .error e => (s, Except.error e)
          | .ok frame => tremor_amplitude s frame fs lower upper
        else tremor_amplitude_by_welch welchFn s df2 fs window lower upper
  match run with
  | (s1, Except.error PyErr.valueError) => (s1, Except.error PyErr.attributeError)
  | (s1, Except.error _) => (s1, Except.ok ())
  | (s1, Except.ok _) => (s1, Except.ok ())

/-- Outcome of the stages that precede the amplitude computation: the
    first exception one of resample_signal, filter_signal or (in the fft
    path) fft_signal raises, if any. -/
def firstStageError (coeffs : ℕ → ℚ → List ℚ × List ℚ) (hannFn : ℕ → List ℚ)
    (fftFn : List ℚ → List Qc) (df : DataFrame) (method : String)
    (fs cutoff : ℚ) (order window : ℕ) : Option PyErr :=
  match resample_signal df fs with
  | .error e => some e
  | .ok df1 =>
    match filter_signal coeffs df1 cutoff order fs with
    | .error e => some e
    | .ok df2 =>
      if method = "fft" then
        match fft_signal hannFn fftFn df2 window with
        | .error e => some e
        | .ok _ => none
      else none

/-- Concrete stand-in for the Butterworth coefficient kernel. -/
def cF : ℕ → ℚ → List ℚ × List ℚ := fun _ _ => ([1], [1])

/-- Concrete stand-in for the Hann taper kernel (length w, as scipy). -/
def hannF : ℕ → List ℚ := fun n => List.replicate n 1

/-- Concrete length-preserving stand-in for the FFT kernel. -/
def fftF : List ℚ → List Qc := fun l => l.map (fun q => ⟨q, 0⟩)

/-- Concrete stand-in for the Welch PSD kernel. -/
def welchF : List ℚ → ℚ → ℕ → List ℚ × List ℚ := fun _ _ _ => ([0, 5, 20], [1, 7, 2])

/-- Uniformly sampled two-point signal at 100 Hz. -/
def dfUniform : DataFrame := ⟨[0, 1/100], [("mag_sum_acc", [1, 1])]⟩

/-- Valid irregular signal spanning one second. -/
def dfSpan : DataFrame := ⟨[0, 1], [("mag_sum_acc", [0, 0])]⟩

/-- Valid signal whose first timestamp is off the bin grid and whose two
    resampling grids happen to have equal lengths. -/
def dfOffGrid : DataFrame := ⟨[1/200, 299/10000], [("mag_sum_acc", [1, 1])]⟩

/-- Valid signal on which resampling succeeds with matching grids. -/
def dfMatch : DataFrame := ⟨[0, 3/200], [("mag_sum_acc", [1, 2])]⟩

/-- Frame lacking the mag_sum_acc channel. -/
def dfNoMag : DataFrame := ⟨[0, 1/100], []⟩

/-- Single-sample signal: interp1d raises ValueError on it. -/
def dfOneSample : DataFrame := ⟨[0], [("mag_sum_acc", [5])]⟩

/-- Three-sample frame carrying a filtered_signal channel. -/
def dfFilt3 : DataFrame := ⟨[0, 1, 2], [("filtered_signal", [10, 20, 30])]⟩

/-- One-sample frame carrying a filtered_signal channel. -/
def dfFilt1 : DataFrame := ⟨[0], [("filtered_signal", [10])]⟩

/-- Four-bin spectral frame used to evaluate the band extractor. -/
def frame4 : FftFrame :=
  ⟨[0, 1, 2, 3], [0, 0, 0, 0], [⟨8, 0⟩, ⟨4, 3⟩, ⟨0, 0⟩, ⟨0, 0⟩], [0, 1, 2, 3]⟩

/-- C3: a stage failure (here: resample_signal raising AttributeError on a
    frame without a mag_sum_acc channel) is not surfaced by process; the
    bare except logs it and process returns None with the fields
    untouched, contradicting the propagation the spec requires. -/
theorem process_swallows_stage_error :
    resample_signal dfNoMag 100 = Except.error PyErr.attributeError ∧
    process cF hannF fftF welchF initState dfNoMag "fft" 100 2 2 256 2 10
      = (initState, Except.ok ()) :=
  ⟨rfl, rfl⟩

/-- C8: resampling a signal that is already uniform at 100 Hz at that same
    rate does not return the signal: the arange grid has one point fewer
    than the bin grid, so the magnitude assignment raises ValueError. -/
theorem resample_uniform_raises :
    resample_signal dfUniform 100 = Except.error PyErr.valueError := by
  with_unfolding_all rfl

/-- C5: for a cutoff at or above the Nyquist frequency the filter design
    raises ValueError for the out-of-range normalized frequency before
    lfilter ever runs. -/
theorem filter_signal_nyquist_raises (coeffs : ℕ → ℚ → List ℚ × List ℚ)
    (df : DataFrame) (cutoff : ℚ) (order : ℕ) (fs : ℚ)
    (hfs : 0 < fs) (hc : fs / 2 ≤ cutoff) :
    filter_signal coeffs df cutoff order fs = Except.error PyErr.valueError := by
  have h1 : (1 : ℚ) ≤ 2 * cutoff / fs := by
    rw [le_div_iff₀ hfs]
    linarith
  unfold filter_signal butter
  rw [if_neg]
  rintro ⟨-, h2⟩
  linarith

/-- Witness for C5 at cutoff 50 Hz and sampling rate 100 Hz. -/
theorem filter_signal_nyquist_raises_witness :
    (0 : ℚ) < 100 ∧ (100 : ℚ) / 2 ≤ 50 ∧
    filter_signal cF dfUniform 50 2 100 = Except.error PyErr.valueError :=
  ⟨by norm_num, by norm_num,
    filter_signal_nyquist_raises cF dfUniform 50 2 100 (by norm_num) (by norm_num)⟩

/-- C10 counterexample: on a single-sample signal the resampling stage
    raises ValueError (interp1d needs two points), and process does not
    return normally: the ValueError handler evaluates verr.message, which
    does not exist on a Python 3 ValueError, so an AttributeError
    propagates out of process. -/
theorem process_valueerror_not_swallowed :
    resample_signal dfOneSample 100 = Except.error PyErr.valueError ∧
    process cF hannF fftF welchF initState dfOneSample "fft" 100 2 2 256 2 10
      = (initState, Except.error PyErr.attributeError) :=
  ⟨by with_unfolding_all rfl, by with_unfolding_all rfl⟩

/-- Looking a name up after mapping a key-preserving function over the
    columns finds the mapped original entry. -/
theorem find?_map_fst {α β : Type} (l : List (String × α)) (f : String × α → String × β)
    (hf : ∀ c, (f c).1 = c.1) (name : String) :
    (l.map f).find? (fun c => decide (c.1 = name)) =
      (l.find? (fun c => decide (c.1 = name))).map f := by
  rw [List.find?_map]
  have : ((fun c : String × β => decide (c.1 = name)) ∘ f)
      = (fun c : String × α => decide (c.1 = name)) := by
    funext c
    simp [hf c]
  rw [this]

/-- Reading back the column just assigned. -/
theorem getCol_setCol_same (df : DataFrame) (name : String) (v : List ℚ) :
    getCol (setCol df name v) name = some v := by
  unfold setCol
  by_cases hs : (df.cols.find? (fun c => decide (c.1 = name))).isSome
  · rw [if_pos hs]
    unfold getCol
    rw [find?_map_fst _ _ (by intro c; by_cases hc : c.1 = name <;> simp [hc])]
    obtain ⟨c, hc⟩ := Option.isSome_iff_exists.mp hs
    have hcn : c.1 = name := by simpa using List.find?_some hc
    simp [hc, hcn]
  · rw [if_neg hs]
    unfold getCol
    rw [List.find?_append, Option.not_isSome_iff_eq_none.mp hs]
    simp

/-- Assigning one column leaves every other column unchanged. -/
theorem getCol_setCol_other (df : DataFrame) (name other : String) (v : List ℚ)
    (hne : other ≠ name) :
    getCol (setCol df name v) other = getCol df other := by
  unfold setCol
  by_cases hs : (df.cols.find? (fun c => decide (c.1 = name))).isSome
  · rw [if_pos hs]
    unfold getCol
    rw [find?_map_fst _ _ (by intro c; by_cases hc : c.1 = name <;> simp [hc])]
    cases hfind : df.cols.find? (fun c => decide (c.1 = other)) with
    | none => simp [hfind]
    | some c =>
      have hco : c.1 = other := by simpa using List.find?_some hfind
      have : c.1 ≠ name := by rw [hco]; exact hne
      simp [hfind, this]
  · rw [if_neg hs]
    unfold getCol
    rw [List.find?_append]
    cases hfind : df.cols.find? (fun c => decide (c.1 = other)) with
    | none =>
      have : ¬(name = other) := fun h => hne h.symm
      simp [hfind, this]
    | some c => simp [hfind]

/-- Column assignment does not touch the index. -/
theorem setCol_td (df : DataFrame) (name : String) (v : List ℚ) :
    (setCol df name v).td = df.td := by
  unfold setCol
  by_cases hs : (df.cols.find? (fun c => decide (c.1 = name))).isSome <;> simp [hs]

/-- lfilter emits exactly one output sample per input sample. -/
theorem lfilterAux_length (b a x : List ℚ) (n : ℕ) : (lfilterAux b a x n).length = n := by
  induction n with
  | zero => rfl
  | succ n ih => simp [lfilterAux, ih]

/-- lfilter output length equals the input length. -/
theorem lfilter_length (b a x : List ℚ) : (lfilter b a x).length = x.length :=
  lfilterAux_length b a x x.length

/-- C9: on a valid configuration filter_signal returns the same frame with
    the lfilter output appended as the filtered_signal channel, of the
    same length as the magnitude channel; the index and every other
    channel, in particular mag_sum_acc, are unchanged. -/
theorem filter_signal_spec (coeffs : ℕ → ℚ → List ℚ × List ℚ) (df : DataFrame)
    (cutoff : ℚ) (order : ℕ) (fs : ℚ) (mag : List ℚ)
    (hcol : getCol df "mag_sum_acc" = some mag)
    (hwn : 0 < 2 * cutoff / fs ∧ 2 * cutoff / fs < 1) :
    ∃ out, filter_signal coeffs df cutoff order fs = Except.ok out ∧
      getCol out "filtered_signal"
        = some (lfilter (coeffs order (2 * cutoff / fs)).1
                        (coeffs order (2 * cutoff / fs)).2 mag) ∧
      (lfilter (coeffs order (2 * cutoff / fs)).1
               (coeffs order (2 * cutoff / fs)).2 mag).length = mag.length ∧
      out.td = df.td ∧
      ∀ name, name ≠ "filtered_signal" → getCol out name = getCol df name := by
  unfold filter_signal butter
  rw [if_pos hwn, hcol]
  refine ⟨_, rfl, getCol_setCol_same _ _ _, lfilter_length _ _ _, setCol_td _ _ _, ?_⟩
  intro name hname
  exact getCol_setCol_other _ _ _ _ hname

/-- Witness for C9 on a concrete two-sample frame with identity filter
    coefficients. -/
theorem filter_signal_spec_witness :
    getCol dfUniform "mag_sum_acc" = some [1, 1] ∧
    (0 < 2 * (2 : ℚ) / 100 ∧ 2 * (2 : ℚ) / 100 < 1) ∧
    ∃ out, filter_signal cF dfUniform 2 2 100 = Except.ok out ∧
      getCol out "filtered_signal"
        = some (lfilter (cF 2 (2 * 2 / 100)).1 (cF 2 (2 * 2 / 100)).2 [1, 1]) ∧
      (lfilter (cF 2 (2 * 2 / 100)).1 (cF 2 (2 * 2 / 100)).2 [1, 1]).length = ([1, 1] : List ℚ).length ∧
      out.td = dfUniform.td ∧
      ∀ name, name ≠ "filtered_signal" → getCol out name = getCol dfUniform name :=
  ⟨rfl, by norm_num,
    filter_signal_spec cF dfUniform 2 2 100 [1, 1] rfl (by norm_num)⟩

/-- Floor of half a natural number, as rational division. -/
theorem floor_natCast_div_two (m : ℕ) : ⌊(m : ℚ) / 2⌋ = ((m / 2 : ℕ) : ℤ) := by
  rw [Int.floor_eq_iff]
  constructor
  · push_cast
    rw [le_div_iff₀ (by norm_num : (0 : ℚ) < 2)]
    exact_mod_cast Nat.div_mul_le_self m 2
  · push_cast
    rw [div_lt_iff₀ (by norm_num : (0 : ℚ) < 2)]
    have h : m < (m / 2 + 1) * 2 := by omega
    exact_mod_cast h

/-- pyTrunc agrees with the floor on nonnegative arguments. -/
theorem pyTrunc_natCast_div_two (m : ℕ) : pyTrunc ((m : ℚ) / 2) = ((m / 2 : ℕ) : ℤ) := by
  unfold pyTrunc
  rw [if_pos (by positivity), floor_natCast_div_two]

/-- Python slicing with in-range natural bounds is drop-take. -/
theorem pySlice_eq {α : Type} (l : List α) (a b : ℕ) (hab : a ≤ b) (hb : b ≤ l.length) :
    pySlice l ((a : ℕ) : ℤ) ((b : ℕ) : ℤ) = (l.drop a).take (b - a) := by
  have h1 : ¬((a : ℤ) < 0) := by omega
  have h2 : ¬((b : ℤ) < 0) := by omega
  simp only [pySlice, if_neg h1, if_neg h2]
  rw [min_eq_left (show (a : ℤ) ≤ (l.length : ℤ) by omega),
    min_eq_left (show (b : ℤ) ≤ (l.length : ℤ) by omega)]
  have h3 : ((b : ℤ) - (a : ℤ)).toNat = b - a := by omega
  have h4 : ((a : ℤ)).toNat = a := by omega
  rw [h3, h4]

/-- A Python slice never exceeds the source length. -/
theorem pySlice_length_le {α : Type} (l : List α) (lo hi : ℤ) :
    (pySlice l lo hi).length ≤ l.length := by
  simp only [pySlice, List.length_take, List.length_drop]
  omega

/-- Slices at the same bounds of equally long lists are equally long. -/
theorem pySlice_length_congr {α β : Type} (l₁ : List α) (l₂ : List β) (lo hi : ℤ)
    (h : l₁.length = l₂.length) :
    (pySlice l₁ lo hi).length = (pySlice l₂ lo hi).length := by
  simp only [pySlice, List.length_take, List.length_drop, h]

/-- C4: when the filtered signal is shorter than the window, fft_signal
    raises (the sliced excerpt cannot match the Hann window, so either the
    numpy broadcast, the FFT on zero points, or the frame construction
    fails); when it is at least as long, fft_signal returns the centered
    excerpt from floor(L/2 - w/2) of length w, tapered, transformed, with
    the matching timestamps. -/
theorem fft_signal_spec (hannFn : ℕ → List ℚ) (fftFn : List ℚ → List Qc) (df : DataFrame)
    (window : ℕ) (fsig : List ℚ)
    (hcol : getCol df "filtered_signal" = some fsig)
    (htd : df.td.length = fsig.length)
    (hhann : (hannFn window).length = window)
    (hfft : ∀ l, (fftFn l).length = l.length)
    (hpos : 0 < window) :
    (fsig.length < window → ∃ e, fft_signal hannFn fftFn df window = Except.error e) ∧
    (window ≤ fsig.length →
      fft_signal hannFn fftFn df window =
        Except.ok ⟨(df.td.drop ((fsig.length - window) / 2)).take window,
          List.zipWith (fun u v => u * v)
            ((fsig.drop ((fsig.length - window) / 2)).take window) (hannFn window),
          fftFn (List.zipWith (fun u v => u * v)
            ((fsig.drop ((fsig.length - window) / 2)).take window) (hannFn window)),
          (df.td.drop ((fsig.length - window) / 2)).take window⟩) := by
  constructor
  · intro hlt
    simp only [fft_signal, hcol]
    set ll := pyTrunc ((fsig.length : ℚ) / 2 - (window : ℚ) / 2) with hll
    set rr := pyTrunc ((fsig.length : ℚ) / 2 + (window : ℚ) / 2) with hrr
    have hmle : (pySlice fsig ll rr).length ≤ fsig.length := pySlice_length_le _ _ _
    have hdts : (pySlice df.td ll rr).length = (pySlice fsig ll rr).length :=
      pySlice_length_congr _ _ _ _ htd
    set m := (pySlice fsig ll rr).length with hm
    have hne : ¬(m = (hannFn window).length) := by rw [hhann]; omega
    by_cases h1 : m = 1
    · have hnp : npMul (pySlice fsig ll rr) (hannFn window)
          = Except.ok ((hannFn window).map (fun v => (pySlice fsig ll rr).headD 0 * v)) := by
        unfold npMul
        rw [if_neg hne, if_pos h1]
      have hlen : ((hannFn window).map
          (fun v => (pySlice fsig ll rr).headD 0 * v)).length = window := by
        simp [hhann]
      refine ⟨PyErr.valueError, ?_⟩
      simp only [hnp, hlen, hdts, h1]
      rw [if_neg (by omega), if_neg (by rintro ⟨-, hcontra⟩; omega)]
    · by_cases h2 : (hannFn window).length = 1
      · have hL0 : fsig.length = 0 := by rw [hhann] at h2; omega
        have hm0 : m = 0 := by omega
        have hnp : npMul (pySlice fsig ll rr) (hannFn window)
            = Except.ok ((pySlice fsig ll rr).map (fun u => u * (hannFn window).headD 0)) := by
          unfold npMul
          rw [if_neg hne, if_neg h1, if_pos h2]
        have hmap0 : ((pySlice fsig ll rr).map
            (fun u => u * (hannFn window).headD 0)).length = 0 := by
          rw [List.length_map, ← hm, hm0]
        refine ⟨PyErr.valueError, ?_⟩
        simp only [hnp, hmap0]
        rw [if_pos trivial]
      · have hnp : npMul (pySlice fsig ll rr) (hannFn window) = Except.error PyErr.valueError := by
          unfold npMul
          rw [if_neg hne, if_neg h1, if_neg h2]
        refine ⟨PyErr.valueError, ?_⟩
        simp only [hnp]
  · intro hge
    simp only [fft_signal, hcol]
    have hcast : ((fsig.length : ℚ) / 2 - (window : ℚ) / 2)
        = (((fsig.length - window : ℕ) : ℚ)) / 2 := by
      rw [Nat.cast_sub hge]
      ring
    have hcast2 : ((fsig.length : ℚ) / 2 + (window : ℚ) / 2)
        = (((fsig.length + window : ℕ) : ℚ)) / 2 := by
      push_cast
      ring
    rw [hcast, hcast2, pyTrunc_natCast_div_two, pyTrunc_natCast_div_two]
    set a := (fsig.length - window) / 2 with ha
    set b := (fsig.length + window) / 2 with hb
    have hba : b - a = window := by omega
    have hbl : b ≤ fsig.length := by omega
    rw [pySlice_eq fsig a b (by omega) hbl, pySlice_eq df.td a b (by omega) (by omega), hba]
    have hmsalen : ((fsig.drop a).take window).length = window := by
      simp only [List.length_take, List.length_drop]
      omega
    have htdlen : ((df.td.drop a).take window).length = window := by
      simp only [List.length_take, List.length_drop]
      omega
    have hnp : npMul ((fsig.drop a).take window) (hannFn window)
        = Except.ok (List.zipWith (fun u v => u * v)
            ((fsig.drop a).take window) (hannFn window)) := by
      unfold npMul
      rw [if_pos (hmsalen.trans hhann.symm)]
    have hzip : (List.zipWith (fun u v => u * v)
        ((fsig.drop a).take window) (hannFn window)).length = window := by
      rw [List.length_zipWith, hmsalen, hhann]
      omega
    simp only [hnp, hzip, hfft, htdlen]
    rw [if_neg (by omega)]
    simp

/-- Witness for C4: a one-sample filtered signal with window 2 raises; a
    three-sample one returns the centered two-sample excerpt. -/
theorem fft_signal_spec_witness :
    (∃ e, fft_signal hannF fftF dfFilt1 2 = Except.error e) ∧
    fft_signal hannF fftF dfFilt3 2 =
      Except.ok ⟨[0, 1], List.zipWith (fun u v => u * v) [10, 20] (hannF 2),
        fftF (List.zipWith (fun u v => u * v) [10, 20] (hannF 2)), [0, 1]⟩ := by
  constructor
  · exact (fft_signal_spec hannF fftF dfFilt1 2 [10] rfl rfl (by simp [hannF])
      (fun l => by simp [fftF]) (by norm_num)).1 (by norm_num)
  · have h := (fft_signal_spec hannF fftF dfFilt3 2 [10, 20, 30] rfl rfl (by simp [hannF])
      (fun l => by simp [fftF]) (by norm_num)).2 (by norm_num)
    simpa using h

/-- argmax of an empty array only. -/
theorem argmaxIdx_eq_none (l : List ℚ) : argmaxIdx l = none ↔ l = [] := by
  cases l with
  | nil => simp [argmaxIdx]
  | cons x xs =>
    simp only [argmaxIdx]
    cases h : argmaxIdx xs <;> simp
    split <;> simp

/-- numpy argmax: the returned index is in range, carries the maximum,
    and every strictly earlier entry is strictly smaller (ties keep the
    first index). -/
theorem argmaxIdx_spec (l : List ℚ) (h : l ≠ []) :
    ∃ j, argmaxIdx l = some j ∧ j < l.length ∧
      (∀ k, k < l.length → l.getD k 0 ≤ l.getD j 0) ∧
      (∀ k, k < j → l.getD k 0 < l.getD j 0) := by
  induction l with
  | nil => exact absurd rfl h
  | cons x xs ih =>
    by_cases hxs : xs = []
    · subst hxs
      refine ⟨0, by simp [argmaxIdx], by simp, ?_, ?_⟩
      · intro k hk
        have : k = 0 := by simpa using hk
        subst this
        exact le_refl _
      · intro k hk
        omega
    · obtain ⟨j, hj, hjlt, hmax, hstrict⟩ := ih hxs
      simp only [argmaxIdx, hj]
      by_cases hx : x < xs.getD j 0
      · refine ⟨j + 1, by rw [if_pos hx], by simpa using hjlt, ?_, ?_⟩
        · intro k hk
          cases k with
          | zero => simpa using le_of_lt hx
          | succ k =>
            rw [List.getD_cons_succ, List.getD_cons_succ]
            exact hmax k (by simpa using hk)
        · intro k hk
          cases k with
          | zero => simpa using hx
          | succ k =>
            rw [List.getD_cons_succ, List.getD_cons_succ]
            exact hstrict k (by omega)
      · refine ⟨0, by rw [if_neg hx], by simp, ?_, ?_⟩
        · intro k hk
          cases k with
          | zero => exact le_refl _
          | succ k =>
            rw [List.getD_cons_succ, List.getD_cons_zero]
            exact le_trans (hmax k (by simpa using hk)) (not_lt.mp hx)
        · intro k hk
          omega

/-- Sum of a masked zip, as a Finset sum over indices. -/
theorem sum_filter_zip {α M : Type} [AddCommMonoid M] (P : ℚ → Prop) [DecidablePred P]
    (g : α → M) (d : α) :
    ∀ (fr : List ℚ) (ts : List α), fr.length = ts.length →
      (((fr.zip ts).filter (fun p => decide (P p.1))).map (fun p => g p.2)).sum
        = ∑ k in Finset.range ts.length, if P (fr.getD k 0) then g (ts.getD k d) else 0 := by
  intro fr
  induction fr with
  | nil =>
    intro ts h
    have : ts = [] := List.length_eq_zero.mp h.symm
    subst this
    simp
  | cons f fr ih =>
    intro ts h
    cases ts with
    | nil => simp at h
    | cons t ts' =>
      have hlen : fr.length = ts'.length := by simpa using h
      simp only [List.zip_cons_cons, List.filter_cons, List.length_cons]
      rw [Finset.sum_range_succ']
      simp only [List.getD_cons_succ, List.getD_cons_zero]
      rw [← ih ts' hlen]
      by_cases hP : P f
      · simp [hP, add_comm]
      · simp [hP]

/-- Squared magnitudes are nonnegative. -/
theorem Qc.normSq_nonneg (z : Qc) : 0 ≤ z.normSq := by
  unfold Qc.normSq
  positivity

/-- Magnitude order is squared-magnitude order. -/
theorem Qc.abs_le_abs_iff (z w : Qc) : Qc.abs z ≤ Qc.abs w ↔ z.normSq ≤ w.normSq := by
  unfold Qc.abs
  constructor
  · intro h
    by_contra hlt
    push_neg at hlt
    have := Real.sqrt_lt_sqrt (show (0 : ℝ) ≤ (w.normSq : ℝ) by exact_mod_cast Qc.normSq_nonneg w)
      (show ((w.normSq : ℝ)) < ((z.normSq : ℝ)) by exact_mod_cast hlt)
    linarith
  · intro h
    exact Real.sqrt_le_sqrt (by exact_mod_cast h)

/-- Strict magnitude order is strict squared-magnitude order. -/
theorem Qc.abs_lt_abs_iff (z w : Qc) : Qc.abs z < Qc.abs w ↔ z.normSq < w.normSq := by
  unfold Qc.abs
  constructor
  · intro h
    by_contra hle
    push_neg at hle
    have := Real.sqrt_le_sqrt (show ((w.normSq : ℝ)) ≤ ((z.normSq : ℝ)) by exact_mod_cast hle)
    linarith
  · intro h
    exact Real.sqrt_lt_sqrt (by exact_mod_cast Qc.normSq_nonneg z) (by exact_mod_cast h)

/-- Squared magnitude after dividing a bin by the excerpt length. -/
theorem Qc.normSq_divNat (z : Qc) (n : ℕ) :
    (z.divNat n).normSq = z.normSq / (n : ℚ) ^ 2 := by
  unfold Qc.divNat Qc.normSq
  rw [div_pow, div_pow, div_add_div_same]

/-- Magnitude after dividing a bin by the excerpt length. -/
theorem Qc.abs_divNat (z : Qc) (n : ℕ) : (z.divNat n).abs = z.abs / (n : ℝ) := by
  unfold Qc.abs
  rw [Qc.normSq_divNat]
  have hcast : (((z.normSq / (n : ℚ) ^ 2 : ℚ)) : ℝ) = (z.normSq : ℝ) / ((n : ℝ)) ^ 2 := by
    push_cast
    ring
  rw [hcast, Real.sqrt_div (by exact_mod_cast Qc.normSq_nonneg z),
    Real.sqrt_sq (by positivity)]

/-- Normalization preserves the squared-magnitude order. -/
theorem Qc.normSq_divNat_le_iff (z w : Qc) (n : ℕ) (hn : 0 < n) :
    (z.divNat n).normSq ≤ (w.divNat n).normSq ↔ z.normSq ≤ w.normSq := by
  rw [Qc.normSq_divNat, Qc.normSq_divNat]
  exact div_le_div_iff_of_pos_right (by positivity)

/-- Normalization preserves the strict squared-magnitude order. -/
theorem Qc.normSq_divNat_lt_iff (z w : Qc) (n : ℕ) (hn : 0 < n) :
    (z.divNat n).normSq < (w.divNat n).normSq ↔ z.normSq < w.normSq := by
  rw [Qc.normSq_divNat, Qc.normSq_divNat]
  exact div_lt_div_iff_of_pos_right (by positivity)

/-- Full evaluation of tremor_amplitude on a well-formed spectral frame:
    the run succeeds, amplitude is the banded sum of normalized one-sided
    magnitudes, and frequency is the first-argmax bin of the one-sided
    magnitudes. -/
theorem tremor_amplitude_eval (s : TremorState) (f : FftFrame) (fs lower upper : ℚ)
    (hT : f.transformed_signal.length = f.filtered_signal.length)
    (hN2 : 2 ≤ f.filtered_signal.length) :
    ∃ j, j < f.filtered_signal.length / 2 ∧
      tremor_amplitude s f fs lower upper =
        ({ amplitude := ∑ k in Finset.range (f.filtered_signal.length / 2),
             if lower < (k : ℚ) * fs / (f.filtered_signal.length : ℚ)
                ∧ (k : ℚ) * fs / (f.filtered_signal.length : ℚ) < upper
             then Qc.abs (f.transformed_signal.getD k ⟨0, 0⟩) / (f.filtered_signal.length : ℝ)
             else 0,
           frequency := (j : ℚ) * fs / (f.filtered_signal.length : ℚ) }, Except.ok ()) ∧
      (∀ k, k < f.filtered_signal.length / 2 →
        Qc.abs (f.transformed_signal.getD k ⟨0, 0⟩)
          ≤ Qc.abs (f.transformed_signal.getD j ⟨0, 0⟩)) ∧
      (∀ k, k < j →
        Qc.abs (f.transformed_signal.getD k ⟨0, 0⟩)
          < Qc.abs (f.transformed_signal.getD j ⟨0, 0⟩)) := by
  set N := f.filtered_signal.length with hN
  set ts := (f.transformed_signal.map (fun z => Qc.divNat z N)).take (N / 2) with hts
  have htsl : ts.length = N / 2 := by
    rw [hts, List.length_take, List.length_map, hT]
    omega
  have hget : ∀ k, k < N / 2 →
      ts.getD k ⟨0, 0⟩ = Qc.divNat (f.transformed_signal.getD k ⟨0, 0⟩) N := by
    intro k hk
    have hk2 : k < f.transformed_signal.length := by omega
    rw [hts, List.getD_eq_getElem?_getD, List.getElem?_take, if_pos hk, List.getElem?_map,
      List.getElem?_eq_getElem hk2, List.getD_eq_getElem?_getD, List.getElem?_eq_getElem hk2]
    rfl
  have hgetn : ∀ k, k < N / 2 → (ts.map Qc.normSq).getD k 0 = Qc.normSq (ts.getD k ⟨0, 0⟩) := by
    intro k hk
    have hk2 : k < ts.length := by omega
    rw [List.getD_eq_getElem?_getD, List.getElem?_map, List.getElem?_eq_getElem hk2,
      List.getD_eq_getElem?_getD, List.getElem?_eq_getElem hk2]
    rfl
  have hfrq : ∀ k, k < N / 2 → (frqAxis fs N).getD k 0 = (k : ℚ) * fs / (N : ℚ) := by
    intro k hk
    have hk2 : k < (List.range (N / 2)).length := by simpa using hk
    rw [frqAxis, List.getD_eq_getElem?_getD, List.getElem?_map,
      List.getElem?_eq_getElem hk2]
    simp
  have hnn : ts.map Qc.normSq ≠ [] := by
    intro hnil
    have hlen0 := congrArg List.length hnil
    simp only [List.length_map, htsl, List.length_nil] at hlen0
    omega
  obtain ⟨j, hj, hjlt, hmax, hstrict⟩ := argmaxIdx_spec _ hnn
  have hjlt' : j < N / 2 := by
    rw [List.length_map, htsl] at hjlt
    exact hjlt
  refine ⟨j, hjlt', ?_, ?_, ?_⟩
  · simp only [tremor_amplitude]
    rw [← hN, ← hts]
    simp only [hj]
    have hsum :
        (((List.zip (frqAxis fs N) ts).filter
            (fun p => decide (lower < p.1 ∧ p.1 < upper))).map (fun p => Qc.abs p.2)).sum
          = ∑ k in Finset.range ts.length,
              if lower < (frqAxis fs N).getD k 0 ∧ (frqAxis fs N).getD k 0 < upper
              then Qc.abs (ts.getD k ⟨0, 0⟩) else 0 :=
      sum_filter_zip (fun q => lower < q ∧ q < upper) Qc.abs ⟨0, 0⟩ (frqAxis fs N) ts
        (by rw [frqAxis, List.length_map, List.length_range, htsl])
    rw [htsl] at hsum
    rw [hsum, hfrq j hjlt']
    have hamp : (∑ k in Finset.range (N / 2),
        if lower < (frqAxis fs N).getD k 0 ∧ (frqAxis fs N).getD k 0 < upper
        then Qc.abs (ts.getD k ⟨0, 0⟩) else 0)
        = ∑ k in Finset.range (N / 2),
            if lower < (k : ℚ) * fs / (N : ℚ) ∧ (k : ℚ) * fs / (N : ℚ) < upper
            then Qc.abs (f.transformed_signal.getD k ⟨0, 0⟩) / (N : ℝ) else 0 := by
      apply Finset.sum_congr rfl
      intro k hk
      have hk' : k < N / 2 := Finset.mem_range.mp hk
      rw [hfrq k hk', hget k hk', Qc.abs_divNat]
    rw [hamp]
  · intro k hk
    have h1 := hmax k (by rw [List.length_map, htsl]; exact hk)
    rw [hgetn k hk, hgetn j hjlt', hget k hk, hget j hjlt'] at h1
    exact (Qc.abs_le_abs_iff _ _).mpr ((Qc.normSq_divNat_le_iff _ _ N (by omega)).mp h1)
  · intro k hk
    have h1 := hstrict k hk
    rw [hgetn k (by omega), hgetn j hjlt', hget k (by omega), hget j hjlt'] at h1
    exact (Qc.abs_lt_abs_iff _ _).mpr ((Qc.normSq_divNat_lt_iff _ _ N (by omega)).mp h1)

/-- C1: tremor_amplitude sets amplitude to the sum over exactly the
    one-sided bins (k < N/2, bin frequency k*fs/N) lying strictly inside
    (lower, upper) of the transform magnitudes each divided by the
    excerpt length N, and sets frequency to the frequency of the
    first maximum-magnitude bin of the entire one-sided spectrum,
    unrestricted to the band. -/
theorem tremor_amplitude_band_spec (s : TremorState) (f : FftFrame) (fs lower upper : ℚ)
    (hT : f.transformed_signal.length = f.filtered_signal.length)
    (hN2 : 2 ≤ f.filtered_signal.length) :
    ∃ j, j < f.filtered_signal.length / 2 ∧
      tremor_amplitude s f fs lower upper =
        ({ amplitude := ∑ k in Finset.range (f.filtered_signal.length / 2),
             if lower < (k : ℚ) * fs / (f.filtered_signal.length : ℚ)
                ∧ (k : ℚ) * fs / (f.filtered_signal.length : ℚ) < upper
             then Qc.abs (f.transformed_signal.getD k ⟨0, 0⟩) / (f.filtered_signal.length : ℝ)
             else 0,
           frequency := (j : ℚ) * fs / (f.filtered_signal.length : ℚ) }, Except.ok ()) ∧
      (∀ k, k < f.filtered_signal.length / 2 →
        Qc.abs (f.transformed_signal.getD k ⟨0, 0⟩)
          ≤ Qc.abs (f.transformed_signal.getD j ⟨0, 0⟩)) ∧
      (∀ k, k < j →
        Qc.abs (f.transformed_signal.getD k ⟨0, 0⟩)
          < Qc.abs (f.transformed_signal.getD j ⟨0, 0⟩)) :=
  tremor_amplitude_eval s f fs lower upper hT hN2

/-- Witness for C1 on a four-bin frame with the band (20, 30): only bin 1
    at 25 Hz is inside the band, while the peak sits at bin 0, outside
    the band. -/
theorem tremor_amplitude_band_spec_witness :
    frame4.transformed_signal.length = frame4.filtered_signal.length ∧
    2 ≤ frame4.filtered_signal.length ∧
    (∃ j, j < frame4.filtered_signal.length / 2 ∧
      tremor_amplitude initState frame4 100 20 30 =
        ({ amplitude := ∑ k in Finset.range (frame4.filtered_signal.length / 2),
             if (20 : ℚ) < (k : ℚ) * 100 / (frame4.filtered_signal.length : ℚ)
                ∧ (k : ℚ) * 100 / (frame4.filtered_signal.length : ℚ) < 30
             then Qc.abs (frame4.transformed_signal.getD k ⟨0, 0⟩)
                    / (frame4.filtered_signal.length : ℝ)
             else 0,
           frequency := (j : ℚ) * 100 / (frame4.filtered_signal.length : ℚ) },
          Except.ok ()) ∧
      (∀ k, k < frame4.filtered_signal.length / 2 →
        Qc.abs (frame4.transformed_signal.getD k ⟨0, 0⟩)
          ≤ Qc.abs (frame4.transformed_signal.getD j ⟨0, 0⟩)) ∧
      (∀ k, k < j →
        Qc.abs (frame4.transformed_signal.getD k ⟨0, 0⟩)
          < Qc.abs (frame4.transformed_signal.getD j ⟨0, 0⟩))) :=
  ⟨rfl, by decide, tremor_amplitude_band_spec initState frame4 100 20 30 rfl (by decide)⟩

/-- Full evaluation of tremor_amplitude_by_welch: the run succeeds,
    frequency is the first-argmax PSD bin over the entire PSD, amplitude
    the banded PSD sum. -/
theorem welch_eval (welchFn : List ℚ → ℚ → ℕ → List ℚ × List ℚ) (s : TremorState)
    (df : DataFrame) (fs : ℚ) (window : ℕ) (lower upper : ℚ) (fsig : List ℚ)
    (hcol : getCol df "filtered_signal" = some fsig)
    (hlen : (welchFn fsig fs window).1.length = (welchFn fsig fs window).2.length)
    (hne : (welchFn fsig fs window).2 ≠ []) :
    ∃ j, j < (welchFn fsig fs window).2.length ∧
      tremor_amplitude_by_welch welchFn s df fs window lower upper =
        ({ amplitude := ((∑ k in Finset.range (welchFn fsig fs window).2.length,
             if lower < (welchFn fsig fs window).1.getD k 0
                ∧ (welchFn fsig fs window).1.getD k 0 < upper
             then (welchFn fsig fs window).2.getD k 0 else 0 : ℚ) : ℝ),
           frequency := (welchFn fsig fs window).1.getD j 0 }, Except.ok ()) ∧
      (∀ k, k < (welchFn fsig fs window).2.length →
        (welchFn fsig fs window).2.getD k 0 ≤ (welchFn fsig fs window).2.getD j 0) ∧
      (∀ k, k < j →
        (welchFn fsig fs window).2.getD k 0 < (welchFn fsig fs window).2.getD j 0) := by
  obtain ⟨j, hj, hjlt, hmax, hstrict⟩ := argmaxIdx_spec _ hne
  refine ⟨j, hjlt, ?_, hmax, hstrict⟩
  simp only [tremor_amplitude_by_welch, hcol, hj]
  have hsum :
      ((((welchFn fsig fs window).1.zip (welchFn fsig fs window).2).filter
          (fun p => decide (lower < p.1 ∧ p.1 < upper))).map (fun p => p.2)).sum
        = ∑ k in Finset.range (welchFn fsig fs window).2.length,
            if lower < (welchFn fsig fs window).1.getD k 0
               ∧ (welchFn fsig fs window).1.getD k 0 < upper
            then (welchFn fsig fs window).2.getD k 0 else 0 :=
    sum_filter_zip (fun q => lower < q ∧ q < upper) (fun q : ℚ => q) 0
      (welchFn fsig fs window).1 (welchFn fsig fs window).2 hlen
  rw [hsum]

/-- C2: tremor_amplitude_by_welch runs the Welch PSD on the whole
    filtered_signal channel with segment length window, takes the
    frequency of the first maximum-power bin over the entire PSD, and
    sums the PSD values of the bins strictly inside (lower, upper). -/
theorem tremor_amplitude_by_welch_spec (welchFn : List ℚ → ℚ → ℕ → List ℚ × List ℚ)
    (s : TremorState) (df : DataFrame) (fs : ℚ) (window : ℕ) (lower upper : ℚ)
    (fsig frq pxx : List ℚ)
    (hcol : getCol df "filtered_signal" = some fsig)
    (hw : welchFn fsig fs window = (frq, pxx))
    (hlen : frq.length = pxx.length) (hne : pxx ≠ []) :
    ∃ j, j < pxx.length ∧
      tremor_amplitude_by_welch welchFn s df fs window lower upper =
        ({ amplitude := ((∑ k in Finset.range pxx.length,
             if lower < frq.getD k 0 ∧ frq.getD k 0 < upper then pxx.getD k 0 else 0 : ℚ) : ℝ),
           frequency := frq.getD j 0 }, Except.ok ()) ∧
      (∀ k, k < pxx.length → pxx.getD k 0 ≤ pxx.getD j 0) ∧
      (∀ k, k < j → pxx.getD k 0 < pxx.getD j 0) := by
  have h := welch_eval welchFn s df fs window lower upper fsig hcol
    (by rw [hw]; exact hlen) (by rw [hw]; exact hne)
  simp only [hw] at h
  exact h

/-- Witness for C2 with a concrete three-bin PSD kernel. -/
theorem tremor_amplitude_by_welch_spec_witness :
    getCol dfFilt3 "filtered_signal" = some [10, 20, 30] ∧
    welchF [10, 20, 30] 100 256 = ([0, 5, 20], [1, 7, 2]) ∧
    (∃ j, j < ([1, 7, 2] : List ℚ).length ∧
      tremor_amplitude_by_welch welchF initState dfFilt3 100 256 2 10 =
        ({ amplitude := ((∑ k in Finset.range ([1, 7, 2] : List ℚ).length,
             if (2 : ℚ) < ([0, 5, 20] : List ℚ).getD k 0
                ∧ ([0, 5, 20] : List ℚ).getD k 0 < 10
             then ([1, 7, 2] : List ℚ).getD k 0 else 0 : ℚ) : ℝ),
           frequency := ([0, 5, 20] : List ℚ).getD j 0 }, Except.ok ()) ∧
      (∀ k, k < ([1, 7, 2] : List ℚ).length →
        ([1, 7, 2] : List ℚ).getD k 0 ≤ ([1, 7, 2] : List ℚ).getD j 0) ∧
      (∀ k, k < j → ([1, 7, 2] : List ℚ).getD k 0 < ([1, 7, 2] : List ℚ).getD j 0)) :=
  ⟨rfl, rfl, tremor_amplitude_by_welch_spec welchF initState dfFilt3 100 256 2 10
    [10, 20, 30] [0, 5, 20] [1, 7, 2] rfl rfl rfl (by simp)⟩

/-- C6: when no one-sided bin frequency (fft variant) and no PSD bin
    frequency (welch variant) lies strictly inside (lower, upper), both
    extractors succeed and report amplitude 0, the sum over the empty
    selection. -/
theorem band_empty_amplitude_zero (s : TremorState) (f : FftFrame)
    (welchFn : List ℚ → ℚ → ℕ → List ℚ × List ℚ) (df : DataFrame)
    (fs : ℚ) (window : ℕ) (lower upper : ℚ) (fsig : List ℚ)
    (hT : f.transformed_signal.length = f.filtered_signal.length)
    (hN2 : 2 ≤ f.filtered_signal.length)
    (hbandF : ∀ k, k < f.filtered_signal.length / 2 →
      ¬(lower < (k : ℚ) * fs / (f.filtered_signal.length : ℚ)
        ∧ (k : ℚ) * fs / (f.filtered_signal.length : ℚ) < upper))
    (hcol : getCol df "filtered_signal" = some fsig)
    (hlen : (welchFn fsig fs window).1.length = (welchFn fsig fs window).2.length)
    (hne : (welchFn fsig fs window).2 ≠ [])
    (hbandW : ∀ k, k < (welchFn fsig fs window).2.length →
      ¬(lower < (welchFn fsig fs window).1.getD k 0
        ∧ (welchFn fsig fs window).1.getD k 0 < upper)) :
    ((tremor_amplitude s f fs lower upper).1.amplitude = 0 ∧
      (tremor_amplitude s f fs lower upper).2 = Except.ok ()) ∧
    ((tremor_amplitude_by_welch welchFn s df fs window lower upper).1.amplitude = 0 ∧
      (tremor_amplitude_by_welch welchFn s df fs window lower upper).2 = Except.ok ()) := by
  constructor
  · obtain ⟨j, hj, heq, -, -⟩ := tremor_amplitude_eval s f fs lower upper hT hN2
    simp only [heq]
    refine ⟨Finset.sum_eq_zero ?_, trivial⟩
    intro k hk
    exact if_neg (hbandF k (Finset.mem_range.mp hk))
  · obtain ⟨j, hj, heq, -, -⟩ := welch_eval welchFn s df fs window lower upper fsig hcol hlen hne
    simp only [heq]
    have h0 : (∑ k in Finset.range (welchFn fsig fs window).2.length,
        if lower < (welchFn fsig fs window).1.getD k 0
           ∧ (welchFn fsig fs window).1.getD k 0 < upper
        then (welchFn fsig fs window).2.getD k 0 else 0) = 0 :=
      Finset.sum_eq_zero (fun k hk => if_neg (hbandW k (Finset.mem_range.mp hk)))
    rw [h0]
    exact ⟨Rat.cast_zero, trivial⟩

/-- Witness for C6 with the band (30, 40), which contains none of the
    bin frequencies 0 and 25 of the fft frame nor 0, 5, 20 of the Welch
    kernel. -/
theorem band_empty_amplitude_zero_witness :
    (tremor_amplitude initState frame4 100 30 40).1.amplitude = 0 ∧
    (tremor_amplitude initState frame4 100 30 40).2 = Except.ok () ∧
    (tremor_amplitude_by_welch welchF initState dfFilt3 100 256 30 40).1.amplitude = 0 ∧
    (tremor_amplitude_by_welch welchF initState dfFilt3 100 256 30 40).2 = Except.ok () := by
  have h := band_empty_amplitude_zero initState frame4 welchF dfFilt3 100 256 30 40
    [10, 20, 30] rfl (by decide)
    (by
      intro k hk
      have hk2 : k < 2 := hk
      clear hk
      simp only [show frame4.filtered_signal.length = 4 from rfl]
      interval_cases k <;> norm_num)
    rfl rfl (by simp [welchF])
    (by
      intro k hk
      have hk2 : k < 3 := hk
      clear hk
      interval_cases k <;> norm_num [welchF])
  exact ⟨h.1.1, h.1.2, h.2.1, h.2.2⟩

/-- headD is getD at position zero. -/
theorem headD_eq_getD {α : Type} (l : List α) (d : α) : l.headD d = l.getD 0 d := by
  cases l <;> rfl

/-- The pandas linear interpolation pass is the identity on a channel
    without NaNs. -/
theorem fillNones_map_some (l : List ℚ) : fillNones (l.map some) = l := by
  unfold fillNones
  rw [List.length_map]
  apply List.ext_getElem
  · simp
  · intro i h1 h2
    rw [List.getElem_map, List.getElem_range]
    have hsome : (l.map some).getD i none = some l[i] := by
      rw [List.getD_eq_getElem?_getD, List.getElem?_map, List.getElem?_eq_getElem h2]
      rfl
    rw [hsome]

/-- C7 counterexample: on the valid two-sample signal spanning [0, 1] s,
    resampling at 100 Hz raises ValueError (the arange grid has 100
    points, the bin grid 101), so no uniformly spaced output exists; and
    on a valid signal starting at 0.005 s whose grids match, the first
    output timestamp is 0, before the original time range. -/
theorem resample_grid_cex :
    resample_signal dfSpan 100 = Except.error PyErr.valueError ∧
    (resample_signal dfOffGrid 100).toOption.map (fun d => d.td.headD 1) = some 0 ∧
    dfOffGrid.td.headD 1 = 1 / 200 ∧ (0 : ℚ) < 1 / 200 :=
  ⟨by with_unfolding_all rfl, by with_unfolding_all rfl,
    by with_unfolding_all rfl, by norm_num⟩

/-- Looking up the magnitude column after the three column maps of
    resample_signal (bin means, magnitude overwrite, NaN interpolation)
    yields exactly the interpolated magnitude values. -/
theorem getCol_after_resample_maps (l : List (String × List ℚ)) (name : String)
    (g1 : String × List ℚ → List (Option ℚ)) (v : List ℚ)
    (hfound : ∃ c, l.find? (fun c => decide (c.1 = name)) = some c) :
    ((((l.map (fun c => (c.1, g1 c))).map
        (fun c => if c.1 = name then (c.1, v.map some) else c)).map
        (fun c => (c.1, fillNones c.2))).find?
          (fun c => decide (c.1 = name))).map (fun c => c.2)
      = some v := by
  induction l with
  | nil =>
    obtain ⟨c, hc⟩ := hfound
    simp at hc
  | cons c0 t ih =>
    by_cases h : c0.1 = name
    · simp only [List.map_cons, if_pos h]
      simp [List.find?_cons, h, fillNones_map_some]
    · simp only [List.map_cons, if_neg h]
      rw [List.find?_cons_of_neg]
      · apply ih
        obtain ⟨c, hc⟩ := hfound
        rw [List.find?_cons_of_neg] at hc
        · exact ⟨c, hc⟩
        · simp [h]
      · simp [h]

/-- C7 as amended: when the arange grid and the bin grid have equal
    lengths, resample_signal succeeds, the magnitude channel is the
    interpolant evaluated on arange(td[0], td[-1], 1/fs), consecutive
    output timestamps differ by exactly 1/fs, and the first output
    timestamp is td[0] floored to the bin grid (which may precede the
    original range). -/
theorem resample_signal_spec (df : DataFrame) (fs : ℚ) (mag : List ℚ)
    (hcol : getCol df "mag_sum_acc" = some mag)
    (hn : 2 ≤ df.td.length)
    (hlen : (arange (df.td.headD 0) (df.td.getLastD 0) (1 / fs)).length
      = (⌊df.td.getLastD 0 / (1 / fs)⌋ - ⌊df.td.headD 0 / (1 / fs)⌋ + 1).toNat) :
    ∃ out, resample_signal df fs = Except.ok out ∧
      getCol out "mag_sum_acc"
        = some ((arange (df.td.headD 0) (df.td.getLastD 0) (1 / fs)).map
            (interp1 df.td mag)) ∧
      out.td.length
        = (⌊df.td.getLastD 0 / (1 / fs)⌋ - ⌊df.td.headD 0 / (1 / fs)⌋ + 1).toNat ∧
      (∀ i, i + 1 < out.td.length → out.td.getD (i + 1) 0 - out.td.getD i 0 = 1 / fs) ∧
      (0 < out.td.length →
        out.td.headD 0 = (⌊df.td.headD 0 / (1 / fs)⌋ : ℚ) * (1 / fs)) := by
  have h0 : ¬(df.td.length = 0) := by omega
  have h2 : ¬(df.td.length < 2) := by omega
  simp only [resample_signal, hcol, if_neg h0, if_neg h2]
  rw [if_neg (fun hcontra => hcontra hlen)]
  refine ⟨_, rfl, ?_, ?_, ?_, ?_⟩
  · simp only [getCol]
    apply getCol_after_resample_maps
    obtain ⟨c, hfind, -⟩ := Option.map_eq_some'.mp hcol
    exact ⟨c, hfind⟩
  · simp
  · intro i hi
    rw [List.length_map, List.length_range] at hi
    have hg : ∀ k, k < (⌊df.td.getLastD 0 / (1 / fs)⌋ - ⌊df.td.headD 0 / (1 / fs)⌋ + 1).toNat →
        ((List.range ((⌊df.td.getLastD 0 / (1 / fs)⌋ - ⌊df.td.headD 0 / (1 / fs)⌋ + 1).toNat)).map
          (fun i : ℕ => ((⌊df.td.headD 0 / (1 / fs)⌋ : ℚ) + (i : ℚ)) * (1 / fs))).getD k 0
          = ((⌊df.td.headD 0 / (1 / fs)⌋ : ℚ) + (k : ℚ)) * (1 / fs) := by
      intro k hk
      have hk2 : k < (List.range ((⌊df.td.getLastD 0 / (1 / fs)⌋
          - ⌊df.td.headD 0 / (1 / fs)⌋ + 1).toNat)).length := by simpa using hk
      rw [List.getD_eq_getElem?_getD, List.getElem?_map, List.getElem?_eq_getElem hk2]
      simp
    rw [hg (i + 1) hi, hg i (by omega)]
    push_cast
    ring
  · intro hpos
    rw [List.length_map, List.length_range] at hpos
    rw [headD_eq_getD]
    have hg0 : ((List.range ((⌊df.td.getLastD 0 / (1 / fs)⌋
        - ⌊df.td.headD 0 / (1 / fs)⌋ + 1).toNat)).map
          (fun i : ℕ => ((⌊df.td.headD 0 / (1 / fs)⌋ : ℚ) + (i : ℚ)) * (1 / fs))).getD 0 0
          = ((⌊df.td.headD 0 / (1 / fs)⌋ : ℚ) + ((0 : ℕ) : ℚ)) * (1 / fs) := by
      have hk2 : 0 < (List.range ((⌊df.td.getLastD 0 / (1 / fs)⌋
          - ⌊df.td.headD 0 / (1 / fs)⌋ + 1).toNat)).length := by simpa using hpos
      rw [List.getD_eq_getElem?_getD, List.getElem?_map, List.getElem?_eq_getElem hk2]
      simp
    rw [hg0]
    push_cast
    ring

/-- Witness for C7 on a signal whose grids happen to match: td = [0,
    0.015] at 100 Hz gives two bins and two arange points. -/
theorem resample_signal_spec_witness :
    getCol dfMatch "mag_sum_acc" = some [1, 2] ∧
    2 ≤ dfMatch.td.length ∧
    (arange (dfMatch.td.headD 0) (dfMatch.td.getLastD 0) (1 / 100)).length
      = (⌊dfMatch.td.getLastD 0 / (1 / 100)⌋ - ⌊dfMatch.td.headD 0 / (1 / 100)⌋ + 1).toNat ∧
    (∃ out, resample_signal dfMatch 100 = Except.ok out ∧
      getCol out "mag_sum_acc"
        = some ((arange (dfMatch.td.headD 0) (dfMatch.td.getLastD 0) (1 / 100)).map
            (interp1 dfMatch.td [1, 2])) ∧
      out.td.length
        = (⌊dfMatch.td.getLastD 0 / (1 / 100)⌋ - ⌊dfMatch.td.headD 0 / (1 / 100)⌋ + 1).toNat ∧
      (∀ i, i + 1 < out.td.length → out.td.getD (i + 1) 0 - out.td.getD i 0 = 1 / 100) ∧
      (0 < out.td.length →
        out.td.headD 0 = (⌊dfMatch.td.headD 0 / (1 / 100)⌋ : ℚ) * (1 / 100))) :=
  ⟨rfl, by decide, by with_unfolding_all rfl,
    resample_signal_spec dfMatch 100 [1, 2] rfl (by decide) (by with_unfolding_all rfl)⟩

/-- C10 as amended: when one of resample_signal, filter_signal or (in the
    fft path) fft_signal raises, process leaves the result fields at
    their pre-call values; it returns normally exactly when the stage
    exception is not a ValueError, while on a stage ValueError the
    handler itself raises an AttributeError that escapes process. -/
theorem process_catch_spec (coeffs : ℕ → ℚ → List ℚ × List ℚ) (hannFn : ℕ → List ℚ)
    (fftFn : List ℚ → List Qc) (welchFn : List ℚ → ℚ → ℕ → List ℚ × List ℚ)
    (s : TremorState) (df : DataFrame) (method : String) (fs cutoff : ℚ)
    (order window : ℕ) (lower upper : ℚ) (e : PyErr)
    (h : firstStageError coeffs hannFn fftFn df method fs cutoff order window = some e) :
    process coeffs hannFn fftFn welchFn s df method fs cutoff order window lower upper
      = (s, if e = PyErr.valueError then Except.error PyErr.attributeError
            else Except.ok ()) := by
  unfold firstStageError at h
  unfold process
  cases hr : resample_signal df fs with
  | error e1 =>
    simp only [hr] at h
    injection h with h
    subst h
    simp only [hr]
    cases e1 <;> rfl
  | ok df1 =>
    simp only [hr] at h ⊢
    cases hf : filter_signal coeffs df1 cutoff order fs with
    | error e1 =>
      simp only [hf] at h
      injection h with h
      subst h
      simp only [hf]
      cases e1 <;> rfl
    | ok df2 =>
      simp only [hf] at h ⊢
      by_cases hm : method = "fft"
      · simp only [if_pos hm] at h ⊢
        cases hft : fft_signal hannFn fftFn df2 window with
        | error e1 =>
          simp only [hft] at h
          injection h with h
          subst h
          simp only [hft]
          cases e1 <;> rfl
        | ok frame =>
          simp only [hft] at h
          exact absurd h (by simp)
      · simp only [if_neg hm] at h
        exact absurd h (by simp)

/-- Witness for C10: a single-sample signal makes resample_signal raise
    ValueError, and process then terminates with the AttributeError from
    the broken handler, fields untouched. -/
theorem process_catch_spec_witness :
    firstStageError cF hannF fftF dfOneSample "fft" 100 2 2 256 = some PyErr.valueError ∧
    process cF hannF fftF welchF initState dfOneSample "fft" 100 2 2 256 2 10
      = (initState, Except.error PyErr.attributeError) := by
  constructor
  · with_unfolding_all rfl
  · have h := process_catch_spec cF hannF fftF welchF initState dfOneSample "fft"
      100 2 2 256 2 10 PyErr.valueError (by with_unfolding_all rfl)
    simpa using h
